import Mathlib

/-!
Verification development for the TimescaleDB query benchmark tool.

The definitions below are a shallow embedding of the Go sources:
* `internal/parser/csv.go` — FNV-1a hostname hashing, record parsing and
  the `ParseAndDistribute` ingestion loop;
* `internal/stats/stats.go` — the `Statistics` accumulator, `Record`,
  `RecordError`, `Compute` and `percentile`;
* `internal/benchmark/benchmark.go` — the `Run` orchestration skeleton.

Machine integers are modelled as `Nat` with explicit `% 2^32` where the Go
code relies on 32-bit wraparound; `time.Duration` values are nanosecond
counts as `Nat` (all recorded durations are non-negative); `float64`
arithmetic inside `percentile` is modelled by exact rationals, with the
final `time.Duration(...)` truncation as the rational floor (all
intermediate values are non-negative, so truncation toward zero is floor).
Fallible operations return `Option`; the context-cancellation signal is a
boolean that is set, if at all, before the run starts.
-/

namespace Benchmark

/-- UTF-8 encoding of one character, as the list of its byte values.
Models Go's `[]byte(hostname)` conversion for one rune. -/
def utf8Bytes (c : Char) : List Nat :=
  let n := c.toNat
  if n < 128 then [n]
  else if n < 2048 then
    [192 ||| (n >>> 6), 128 ||| (n &&& 63)]
  else if n < 65536 then
    [224 ||| (n >>> 12), 128 ||| ((n >>> 6) &&& 63), 128 ||| (n &&& 63)]
  else
    [240 ||| (n >>> 18), 128 ||| ((n >>> 12) &&& 63),
     128 ||| ((n >>> 6) &&& 63), 128 ||| (n &&& 63)]

/-- The bytes of a Go string (UTF-8), as `Nat` values below 256. -/
def strBytes (s : String) : List Nat :=
  s.data.foldr (fun c acc => utf8Bytes c ++ acc) []

/-- FNV-1a 32-bit offset basis. -/
def fnvOffsetBasis : Nat := 2166136261

/-- FNV-1a 32-bit prime. -/
def fnvPrime : Nat := 16777619

/-- One FNV-1a step: xor the byte in, multiply by the prime, in 32 bits.
Models one `Write` step of Go's `hash/fnv` 32a hash. -/
def fnvStep (h b : Nat) : Nat :=
  ((h ^^^ b) * fnvPrime) % 4294967296

/-- FNV-1a 32-bit hash of a byte sequence (`fnv.New32a(); h.Write(bytes)`). -/
def fnv32a (bytes : List Nat) : Nat :=
  bytes.foldl fnvStep fnvOffsetBasis

/-- `hostnameHash` from `internal/parser/csv.go`:
`int(h.Sum32() & 0x7FFFFFFF)` over the hostname's bytes. -/
def hostnameHash (hostname : String) : Nat :=
  fnv32a (strBytes hostname) &&& 2147483647

/-- Worker lane selection from `ParseAndDistribute`:
`workerID := hostnameHash(params.Hostname) % numWorkers`. -/
def route (hostname : String) (numWorkers : Nat) : Nat :=
  hostnameHash hostname % numWorkers

/-- C1: for every partition key (the empty string included) and every lane
count `L ≥ 1`, `route` yields a lane index strictly below `L` (indices are
`Nat`, hence non-negative), and `route` is a pure deterministic function:
equal keys under the same lane count yield equal lane indices. -/
theorem route_lane_in_range (k : String) (L : Nat) (hL : 0 < L) :
    route k L < L ∧ ∀ k2 : String, k2 = k → route k2 L = route k L := by
  refine ⟨Nat.mod_lt _ hL, ?_⟩
  intro k2 hk
  rw [hk]

/-- Witness for C1 at the empty key and at a concrete hostname, lane count 5. -/
theorem route_lane_in_range_witness :
    (0 < 5 ∧ route "" 5 < 5) ∧ route "host_000001" 5 = route "host_000001" 5 :=
  ⟨⟨by decide, (route_lane_in_range "" 5 (by decide)).1⟩,
    (route_lane_in_range "host_000001" 5 (by decide)).2 "host_000001" rfl⟩

/-- A parsed timestamp (Go `time.Time` restricted to the fields the fixed
layout `"2006-01-02 15:04:05"` carries). -/
structure GoTime where
  year : Nat
  month : Nat
  day : Nat
  hour : Nat
  minute : Nat
  second : Nat
deriving DecidableEq, Repr

/-- Gregorian leap-year rule, as Go's `time` package validates dates. -/
def isLeapYear (y : Nat) : Bool :=
  y % 4 == 0 && (y % 100 != 0 || y % 400 == 0)

/-- Number of days in a month, as Go's `time` package validates dates. -/
def daysInMonth (y m : Nat) : Nat :=
  if m = 2 then (if isLeapYear y then 29 else 28)
  else if m = 4 ∨ m = 6 ∨ m = 9 ∨ m = 11 then 30
  else 31

/-- Value of a decimal digit character, `none` for a non-digit. -/
def digitVal (c : Char) : Option Nat :=
  if c.isDigit then some (c.toNat - 48) else none

/-- Two-digit decimal number from two characters. -/
def digits2 (a b : Char) : Option Nat := do
  let x ← digitVal a
  let y ← digitVal b
  pure (10 * x + y)

/-- Four-digit decimal number from four characters. -/
def digits4 (a b c d : Char) : Option Nat := do
  let x ← digits2 a b
  let y ← digits2 c d
  pure (100 * x + y)

/-- Go's `time.Parse("2006-01-02 15:04:05", s)`, modelled for the canonical
fixed-width form of that layout: exactly 19 characters, two-digit
zero-padded fields, with Go's range validation (month 1–12, day valid for
the month and year, hour below 24, minute and second below 60). Returns
`none` exactly when Go's parse returns an error on such input. -/
def parseTimestamp (s : String) : Option GoTime :=
  match s.data with
  | [y1, y2, y3, y4, sep1, mo1, mo2, sep2, d1, d2, sep3,
     h1, h2, sep4, mi1, mi2, sep5, se1, se2] =>
    if sep1 = '-' ∧ sep2 = '-' ∧ sep3 = ' ' ∧ sep4 = ':' ∧ sep5 = ':' then
      match digits4 y1 y2 y3 y4, digits2 mo1 mo2, digits2 d1 d2,
            digits2 h1 h2, digits2 mi1 mi2, digits2 se1 se2 with
      | some yr, some mo, some dy, some hr, some mi, some se =>
        if 1 ≤ mo ∧ mo ≤ 12 ∧ 1 ≤ dy ∧ dy ≤ daysInMonth yr mo ∧
           hr ≤ 23 ∧ mi ≤ 59 ∧ se ≤ 59 then
          some ⟨yr, mo, dy, hr, mi, se⟩
        else none
      | _, _, _, _, _, _ => none
    else none
  | _ => none

/-- `database.QueryParams`: hostname plus parsed time range. -/
structure QueryParams where
  hostname : String
  startTime : GoTime
  endTime : GoTime
deriving DecidableEq, Repr

/-- `parseRecord` from `internal/parser/csv.go`: requires exactly 3 fields,
parses fields 1 and 2 as timestamps, and on success returns the
`QueryParams` carrying field 0 as hostname and the two parsed times. -/
def parseRecord (r : List String) : Option QueryParams :=
  match r with
  | [host, st, en] =>
    match parseTimestamp st with
    | none => none
    | some s =>
      match parseTimestamp en with
      | none => none
      | some e => some ⟨host, s, e⟩
  | _ => none

/-- Unfolding of `parseRecord` on a three-field record. -/
theorem parseRecord_three (host st en : String) :
    parseRecord [host, st, en] =
      match parseTimestamp st, parseTimestamp en with
      | some s, some e => some ⟨host, s, e⟩
      | _, _ => none := by
  cases hs : parseTimestamp st <;> cases he : parseTimestamp en <;>
    simp [parseRecord, hs, he]

/-- C8: `parseRecord` succeeds exactly when the record has three fields and
both timestamp fields parse against the fixed layout; the first field (the
partition key) is unconstrained, so a missing/empty hostname is not an
error; and on success the returned `QueryParams` carries the record's
hostname and the two parsed timestamps unchanged. -/
theorem parseRecord_ok_iff (r : List String) :
    ((parseRecord r).isSome ↔
      ∃ h s e, r = [h, s, e] ∧
        (parseTimestamp s).isSome ∧ (parseTimestamp e).isSome) ∧
    (∀ h s e st et, r = [h, s, e] → parseTimestamp s = some st →
      parseTimestamp e = some et → parseRecord r = some ⟨h, st, et⟩) := by
  constructor
  · constructor
    · intro hsome
      rcases r with _ | ⟨a, _ | ⟨b, _ | ⟨c, _ | ⟨d, t⟩⟩⟩⟩
      · simp [parseRecord] at hsome
      · simp [parseRecord] at hsome
      · simp [parseRecord] at hsome
      · refine ⟨a, b, c, rfl, ?_, ?_⟩ <;>
          · rw [parseRecord_three] at hsome
            cases hb : parseTimestamp b <;> cases hc : parseTimestamp c <;>
              simp [hb, hc] at hsome ⊢
      · simp [parseRecord] at hsome
    · rintro ⟨h, s, e, rfl, hs, he⟩
      rw [parseRecord_three]
      cases hs' : parseTimestamp s <;> cases he' : parseTimestamp e <;>
        simp [hs', he'] at hs he ⊢
  · rintro h s e st et rfl hst het
    rw [parseRecord_three, hst, het]

/-- Witness for C8: the empty hostname with two valid timestamps parses to
the expected `QueryParams`. -/
theorem parseRecord_ok_iff_witness :
    parseRecord ["", "2017-01-01 08:59:22", "2017-01-01 09:59:22"] =
      some ⟨"", ⟨2017, 1, 1, 8, 59, 22⟩, ⟨2017, 1, 1, 9, 59, 22⟩⟩ :=
  (parseRecord_ok_iff ["", "2017-01-01 08:59:22", "2017-01-01 09:59:22"]).2
    "" "2017-01-01 08:59:22" "2017-01-01 09:59:22"
    ⟨2017, 1, 1, 8, 59, 22⟩ ⟨2017, 1, 1, 9, 59, 22⟩ rfl (by decide) (by decide)

/-- One read from the CSV reader: either an I/O / CSV-level read failure or
a record (a list of string fields). End of input (`io.EOF`) is the end of
the list of reads; a completely empty input is the empty list. -/
inductive RecordRead where
  | readFailure : RecordRead
  | fields : List String → RecordRead
deriving DecidableEq, Repr

/-- The terminal errors `ParseAndDistribute` and `Run` can produce. -/
inductive RunError where
  | headerErr : RunError
  | readErr : RunError
  | parseErr : RunError
  | cancelled : RunError
deriving DecidableEq, Repr

/-- A read that the ingestion loop treats as malformed: a read failure or a
record that `parseRecord` rejects. -/
def malformedRead : RecordRead → Bool
  | RecordRead.readFailure => true
  | RecordRead.fields r => (parseRecord r).isNone

/-- The valid work item a read yields, if any. -/
def readValid : RecordRead → Option QueryParams
  | RecordRead.readFailure => none
  | RecordRead.fields r => parseRecord r

/-- The record-processing loop of `ParseAndDistribute` (`csv.go` lines
52–95), after the header has been read. Each iteration first checks the
cancellation signal (modelled as a boolean fixed before the run), then
reads: end of input breaks out returning no error; a read failure aborts
with an error in strict mode and is skipped in lenient mode; a record that
fails `parseRecord` likewise; a valid record is routed to lane
`hostnameHash % numWorkers` and delivered. Returns the delivered
`(lane, item)` pairs in order together with the terminal error, if any. -/
def distributeLoop (strict cancelled : Bool) (numWorkers : Nat) :
    List RecordRead → List (Nat × QueryParams) × Option RunError
  | [] =>
    if cancelled then ([], some RunError.cancelled) else ([], none)
  | r :: rest =>
    if cancelled then ([], some RunError.cancelled)
    else
      match r with
      | RecordRead.readFailure =>
        if strict then ([], some RunError.readErr)
        else distributeLoop strict cancelled numWorkers rest
      | RecordRead.fields f =>
        match parseRecord f with
        | none =>
          if strict then ([], some RunError.parseErr)
          else distributeLoop strict cancelled numWorkers rest
        | some params =>
          let next := distributeLoop strict cancelled numWorkers rest
          ((route params.hostname numWorkers, params) :: next.1, next.2)

/-- `ParseAndDistribute` from `internal/parser/csv.go`: first reads and
discards the header line; a header read failure (including `io.EOF` on a
completely empty input) returns a wrapped error immediately, in every mode
and regardless of cancellation (the cancellation check only happens inside
the record loop). Otherwise runs the record loop. -/
def parseAndDistribute (strict cancelled : Bool) (numWorkers : Nat) :
    List RecordRead → List (Nat × QueryParams) × Option RunError
  | [] => ([], some RunError.headerErr)
  | RecordRead.readFailure :: _ => ([], some RunError.headerErr)
  | RecordRead.fields _ :: rest => distributeLoop strict cancelled numWorkers rest

/-- The observable outcome of one `Run` call: the items delivered to lane
queues, the returned error, whether a `Statistics` value was returned
(non-nil), and whether the lane queues were closed before `Run` returned. -/
structure RunOutcome where
  delivered : List (Nat × QueryParams)
  err : Option RunError
  statsReturned : Bool
  lanesClosed : Bool
deriving DecidableEq, Repr

/-- The control-flow skeleton of `Runner.Run` (`benchmark.go` lines
190–243): run `ParseAndDistribute`; if it returned an error and the runner
is in strict mode, return `(nil, error)` immediately — before the loop that
closes the worker channels. Otherwise (no error, or lenient mode, where the
error is only logged) close every lane, wait for workers and collector,
compute statistics and return them with a nil error. -/
def runBenchmark (strict cancelled : Bool) (numWorkers : Nat)
    (input : List RecordRead) : RunOutcome :=
  let step := parseAndDistribute strict cancelled numWorkers input
  match step.2 with
  | some e =>
    if strict then ⟨step.1, some e, false, false⟩
    else ⟨step.1, none, true, true⟩
  | none => ⟨step.1, none, true, true⟩

/-- In lenient mode with no cancellation, the record loop delivers exactly
the valid records, in order, each routed by its partition key, and ends
with no error. -/
theorem distributeLoop_lenient (w : Nat) :
    ∀ rs : List RecordRead,
      distributeLoop false false w rs =
        ((rs.filterMap readValid).map (fun p => (route p.hostname w, p)), none) := by
  intro rs
  induction rs with
  | nil => simp [distributeLoop]
  | cons r rest ih =>
    cases r with
    | readFailure => simp [distributeLoop, readValid, ih]
    | fields f =>
      cases hf : parseRecord f with
      | none => simp [distributeLoop, readValid, hf, ih]
      | some p => simp [distributeLoop, readValid, hf, ih]

/-- C6: in lenient mode, for every input with a readable header,
`ParseAndDistribute` skips each malformed record, delivers exactly the
valid records to the lane queues — each routed by its partition key — and
returns nil on normal exhaustion of the input; the delivered count is
exactly the number of valid records. -/
theorem lenient_delivers_exactly_valid (w : Nat) (hdr : List String)
    (records : List RecordRead) :
    parseAndDistribute false false w (RecordRead.fields hdr :: records) =
      ((records.filterMap readValid).map (fun p => (route p.hostname w, p)),
        none) ∧
    (parseAndDistribute false false w
        (RecordRead.fields hdr :: records)).1.length =
      (records.filterMap readValid).length := by
  refine ⟨?_, ?_⟩ <;> simp [parseAndDistribute, distributeLoop_lenient]

/-- C10: in every mode, a completely empty input or a header read failure
makes `ParseAndDistribute` return a non-nil (header) error — even when the
cancellation signal is set, since the header is read before the first
cancellation check; an input consisting of only the header distributes
zero items and returns nil. -/
theorem header_read_required (strict cancelled : Bool) (w : Nat) :
    parseAndDistribute strict cancelled w [] = ([], some RunError.headerErr) ∧
    (∀ rest, parseAndDistribute strict cancelled w
        (RecordRead.readFailure :: rest) = ([], some RunError.headerErr)) ∧
    (∀ hdr, parseAndDistribute strict false w [RecordRead.fields hdr] =
        ([], none)) := by
  refine ⟨rfl, fun rest => rfl, fun hdr => ?_⟩
  simp [parseAndDistribute, distributeLoop]

/-- In strict mode with no cancellation, a malformed read anywhere in the
record stream makes the loop end with an error. -/
theorem distributeLoop_strict_malformed (w : Nat) :
    ∀ rs : List RecordRead, (∃ r ∈ rs, malformedRead r = true) →
      (distributeLoop true false w rs).2.isSome = true := by
  intro rs
  induction rs with
  | nil => rintro ⟨r, hr, _⟩; simp at hr
  | cons a rest ih =>
    rintro ⟨r, hr, hm⟩
    rcases List.mem_cons.mp hr with rfl | hr2
    · cases r with
      | readFailure => simp [distributeLoop]
      | fields f =>
        cases hf : parseRecord f with
        | none => simp [distributeLoop, hf]
        | some p => simp [malformedRead, hf] at hm
    · cases a with
      | readFailure => simp [distributeLoop]
      | fields f =>
        cases hf : parseRecord f with
        | none => simp [distributeLoop, hf]
        | some p => simpa [distributeLoop, hf] using ih ⟨r, hr2, hm⟩

/-- C2: in strict mode, for every input stream with a readable header that
contains at least one malformed record (read failure, wrong field count or
unparseable timestamp) among its records, `Run` returns a non-nil error
and does not yield statistics (the returned value is nil, discarding any
partial progress). -/
theorem run_strict_malformed_aborts (w : Nat) (hdr : List String)
    (records : List RecordRead)
    (hmal : ∃ r ∈ records, malformedRead r = true) :
    (runBenchmark true false w
        (RecordRead.fields hdr :: records)).err.isSome = true ∧
    (runBenchmark true false w
        (RecordRead.fields hdr :: records)).statsReturned = false := by
  have hstep := distributeLoop_strict_malformed w records hmal
  rcases Option.isSome_iff_exists.mp hstep with ⟨e, he⟩
  constructor <;> simp [runBenchmark, parseAndDistribute, he]

/-- Sample records used by concrete evaluations. -/
def hdrFields : List String := ["hostname", "start_time", "end_time"]

/-- A well-formed sample record. -/
def goodRecord : List String :=
  ["host_000001", "2017-01-01 08:59:22", "2017-01-01 09:59:22"]

/-- A sample record whose start timestamp does not parse. -/
def badRecord : List String :=
  ["host_000002", "invalid-date", "2017-01-01 11:00:00"]

/-- Witness for C2: a concrete strict run over a valid and a malformed
record returns an error and no statistics. -/
theorem run_strict_malformed_aborts_witness :
    (runBenchmark true false 2
        (RecordRead.fields hdrFields ::
          [RecordRead.fields goodRecord,
            RecordRead.fields badRecord])).err.isSome = true ∧
    (runBenchmark true false 2
        (RecordRead.fields hdrFields ::
          [RecordRead.fields goodRecord,
            RecordRead.fields badRecord])).statsReturned = false :=
  run_strict_malformed_aborts 2 hdrFields
    [RecordRead.fields goodRecord, RecordRead.fields badRecord] (by decide)

/-- Counterexample to C3 as stated: in lenient mode, with the cancellation
signal fired before the run starts, `Run` returns a nil error together
with a statistics value — not the cancellation error — because the
orchestrator only propagates `ParseAndDistribute` errors in strict mode
and merely logs them otherwise. -/
theorem run_lenient_cancelled_returns_nil :
    (runBenchmark false true 2
        [RecordRead.fields hdrFields, RecordRead.fields goodRecord]).err =
      none ∧
    (runBenchmark false true 2
        [RecordRead.fields hdrFields,
          RecordRead.fields goodRecord]).statsReturned = true := by
  decide

/-- C3 (amended): with the cancellation signal fired before the run starts
(and a readable header), `ParseAndDistribute` observes the signal at its
first loop iteration and returns the cancellation error; in strict mode
`Run` propagates it as a non-nil error with no statistics, while in
lenient mode `Run` logs it and returns a nil error with statistics. -/
theorem run_cancelled_by_mode (w : Nat) (hdr : List String)
    (records : List RecordRead) :
    (parseAndDistribute true true w
        (RecordRead.fields hdr :: records)).2 = some RunError.cancelled ∧
    (runBenchmark true true w (RecordRead.fields hdr :: records)).err =
      some RunError.cancelled ∧
    (runBenchmark true true w
        (RecordRead.fields hdr :: records)).statsReturned = false ∧
    (runBenchmark false true w (RecordRead.fields hdr :: records)).err =
      none ∧
    (runBenchmark false true w
        (RecordRead.fields hdr :: records)).statsReturned = true := by
  cases records <;>
    simp [runBenchmark, parseAndDistribute, distributeLoop]

/-- C9 is violated by the code: in strict mode, when ingestion fails on a
malformed record, `Run` returns the error immediately — the `RunOutcome`
records that the lane queues were never closed before the return, so the
workers are left blocked on open lanes. -/
theorem run_strict_error_leaves_lanes_open :
    runBenchmark true false 2
        [RecordRead.fields hdrFields, RecordRead.fields badRecord] =
      ⟨[], some RunError.parseErr, false, false⟩ := by
  decide

/-- `stats.Statistics`: durations are nanosecond counts as `Nat`. The
mutex-guarded Go struct is modelled as a value threaded through the
operations; each mutex-protected method is one atomic state transition. -/
structure Statistics where
  totalQueries : Nat
  processingTime : Nat
  minTime : Nat
  maxTime : Nat
  medianTime : Nat
  avgTime : Nat
  p90 : Nat
  p95 : Nat
  p99 : Nat
  durations : List Nat
deriving DecidableEq, Repr

/-- `stats.New()`: zero counters and an empty duration list. -/
def Statistics.new : Statistics :=
  ⟨0, 0, 0, 0, 0, 0, 0, 0, 0, []⟩

/-- `Statistics.Record`: increments `TotalQueries` and appends the duration. -/
def Statistics.record (s : Statistics) (d : Nat) : Statistics :=
  ⟨s.totalQueries + 1, s.processingTime, s.minTime, s.maxTime, s.medianTime,
    s.avgTime, s.p90, s.p95, s.p99, s.durations ++ [d]⟩

/-- `Statistics.RecordError`: increments `TotalQueries` only. -/
def Statistics.recordError (s : Statistics) : Statistics :=
  ⟨s.totalQueries + 1, s.processingTime, s.minTime, s.maxTime, s.medianTime,
    s.avgTime, s.p90, s.p95, s.p99, s.durations⟩

/-- `Statistics.percentile` from `internal/stats/stats.go`, on an already
sorted duration list: `rank = (p/100)*(n-1)` in `float64` — modelled as an
exact rational — `lower = int(rank)` (truncation; rank is non-negative, so
floor), `upper = lower + 1`; if `upper` would overflow the list, the last
sample; otherwise linear interpolation between the samples at `lower` and
`upper` by the fractional offset, with the final `time.Duration(...)`
conversion as the floor of the non-negative rational result. -/
def percentile (ds : List Nat) (p : ℚ) : Nat :=
  if ds.length = 0 then 0
  else
    let n : ℚ := ds.length
    let rank : ℚ := (p / 100) * (n - 1)
    let lower : Nat := (⌊rank⌋).toNat
    let upper : Nat := lower + 1
    if ds.length ≤ upper then ds.getLastD 0
    else
      let fraction : ℚ := rank - lower
      (⌊(ds.getD lower 0 : ℚ) +
          fraction * ((ds.getD upper 0 : ℚ) - (ds.getD lower 0 : ℚ))⌋).toNat

/-- `Statistics.Compute`: returns unchanged on an empty duration list;
otherwise sorts the durations ascending, sets min and max from the sorted
ends, the median as the middle element (odd count) or the mean of the two
middle elements (even count, integer division as Go's `time.Duration`
division), the average as sum divided by count, and the three
percentiles. -/
def Statistics.compute (s : Statistics) : Statistics :=
  if s.durations.length = 0 then s
  else
    let sorted := s.durations.insertionSort (fun a b => a ≤ b)
    let n := sorted.length
    let mid := n / 2
    let median :=
      if n % 2 = 0 then (sorted.getD (mid - 1) 0 + sorted.getD mid 0) / 2
      else sorted.getD mid 0
    ⟨s.totalQueries, s.processingTime, sorted.headD 0, sorted.getLastD 0,
      median, sorted.sum / n, percentile sorted 90, percentile sorted 95,
      percentile sorted 99, sorted⟩

/-- One call made against the collector: a successful query's duration or
a failed query. -/
inductive StatOp where
  | success : Nat → StatOp
  | failure : StatOp
deriving DecidableEq, Repr

/-- Apply one collector call to the accumulator state. -/
def applyOp (s : Statistics) : StatOp → Statistics
  | StatOp.success d => s.record d
  | StatOp.failure => s.recordError

/-- Apply a sequence of collector calls in order. Because every call holds
the mutex for its whole critical section, any concurrent execution of the
calls is equivalent to some sequential order, which this folds over. -/
def applyOps (s : Statistics) (ops : List StatOp) : Statistics :=
  ops.foldl applyOp s

/-- Whether a collector call is a `Record` (success) call. -/
def StatOp.isSuccess : StatOp → Bool
  | StatOp.success _ => true
  | StatOp.failure => false

/-- The percentile rule as the specification words it: for percentile `p`
and `n` samples, `rank = (p/100)*(n-1)`, the result interpolated between
the sorted samples at `floor(rank)` and `floor(rank)+1` by the fractional
offset, clamped to the last sample when the upper index would overflow. -/
def specPercentile (ds : List Nat) (p : ℚ) : Nat :=
  if ds.length = 0 then 0
  else
    let n : ℚ := ds.length
    let rank : ℚ := (p / 100) * (n - 1)
    let lower : Nat := (⌊rank⌋).toNat
    if lower + 1 ≥ ds.length then ds.getLastD 0
    else
      (⌊(ds.getD lower 0 : ℚ) +
          (rank - lower) *
            ((ds.getD (lower + 1) 0 : ℚ) - (ds.getD lower 0 : ℚ))⌋).toNat

/-- The code's `percentile` computes exactly the specification's
linear-interpolation rank rule. -/
theorem percentile_eq_specPercentile (ds : List Nat) (p : ℚ) :
    percentile ds p = specPercentile ds p := rfl

/-- Adjacent entries of a sorted list are ordered. -/
theorem sorted_getD_le (ds : List Nat)
    (hs : List.Sorted (fun a b : Nat => a ≤ b) ds)
    (i : Nat) (hi : i + 1 < ds.length) : ds.getD i 0 ≤ ds.getD (i + 1) 0 := by
  have h1 : i < ds.length := Nat.lt_of_succ_lt hi
  have hrel := hs.rel_get_of_lt (a := ⟨i, h1⟩) (b := ⟨i + 1, hi⟩)
    (by simp [Fin.lt_def])
  simpa [List.getD_eq_getElem?_getD, List.getElem?_eq_getElem, h1, hi,
    List.get_eq_getElem] using hrel

/-- On a sorted list, `percentile` at an integer percentile equals the same
rule computed in exact integer arithmetic. -/
theorem percentile_nat (ds : List Nat) (p : Nat) (hlen : ds.length ≠ 0)
    (hs : List.Sorted (fun a b : Nat => a ≤ b) ds) :
    percentile ds (p : ℚ) =
      if ds.length ≤ p * (ds.length - 1) / 100 + 1 then ds.getLastD 0
      else
        ds.getD (p * (ds.length - 1) / 100) 0 +
          p * (ds.length - 1) % 100 *
            (ds.getD (p * (ds.length - 1) / 100 + 1) 0 -
              ds.getD (p * (ds.length - 1) / 100) 0) / 100 := by
  have h1 : 1 ≤ ds.length := Nat.one_le_iff_ne_zero.mpr hlen
  have hrank : ((p : ℚ) / 100) * ((ds.length : ℚ) - 1) =
      ((p * (ds.length - 1) : ℕ) : ℚ) / 100 := by
    push_cast [Nat.cast_sub h1]
    ring
  have h100 : ((100 : ℕ) : ℚ) = 100 := by norm_num
  have hfloor : ⌊((p : ℚ) / 100) * ((ds.length : ℚ) - 1)⌋ =
      ((p * (ds.length - 1) / 100 : ℕ) : ℤ) := by
    rw [hrank, ← h100, Rat.floor_natCast_div_natCast]
    exact_mod_cast rfl
  have hfloorNat : (⌊((p : ℚ) / 100) * ((ds.length : ℚ) - 1)⌋).toNat =
      p * (ds.length - 1) / 100 := by
    rw [hfloor, Int.toNat_natCast]
  simp only [percentile, if_neg hlen, hfloorNat]
  by_cases hc : ds.length ≤ p * (ds.length - 1) / 100 + 1
  · simp [hc]
  · rw [if_neg hc, if_neg hc]
    have hup : p * (ds.length - 1) / 100 + 1 < ds.length := Nat.lt_of_not_le hc
    have hab : ds.getD (p * (ds.length - 1) / 100) 0 ≤
        ds.getD (p * (ds.length - 1) / 100 + 1) 0 :=
      sorted_getD_le ds hs _ hup
    have hfrac : ((p : ℚ) / 100) * ((ds.length : ℚ) - 1) -
        ((p * (ds.length - 1) / 100 : ℕ) : ℚ) =
        ((p * (ds.length - 1) % 100 : ℕ) : ℚ) / 100 := by
      rw [hrank]
      have hdm := Nat.div_add_mod (p * (ds.length - 1)) 100
      have hsplit : ((p * (ds.length - 1) : ℕ) : ℚ) =
          100 * ((p * (ds.length - 1) / 100 : ℕ) : ℚ) +
            ((p * (ds.length - 1) % 100 : ℕ) : ℚ) := by
        exact_mod_cast congrArg (fun n : ℕ => (n : ℚ)) hdm.symm
      rw [hsplit]
      ring
    rw [hfrac]
    have hba : ((ds.getD (p * (ds.length - 1) / 100 + 1) 0 : ℚ) -
        (ds.getD (p * (ds.length - 1) / 100) 0 : ℚ)) =
        ((ds.getD (p * (ds.length - 1) / 100 + 1) 0 -
          ds.getD (p * (ds.length - 1) / 100) 0 : ℕ) : ℚ) :=
      (Nat.cast_sub hab).symm
    rw [hba]
    have hmul : ((p * (ds.length - 1) % 100 : ℕ) : ℚ) / 100 *
        ((ds.getD (p * (ds.length - 1) / 100 + 1) 0 -
          ds.getD (p * (ds.length - 1) / 100) 0 : ℕ) : ℚ) =
        ((p * (ds.length - 1) % 100 *
          (ds.getD (p * (ds.length - 1) / 100 + 1) 0 -
            ds.getD (p * (ds.length - 1) / 100) 0) : ℕ) : ℚ) / 100 := by
      push_cast
      ring
    rw [hmul, ← h100, Int.floor_nat_add, Rat.floor_natCast_div_natCast]
    omega

/-- A sorted non-empty list starts with its minimum. -/
theorem sorted_headD_min (l : List Nat)
    (hs : List.Sorted (fun a b : Nat => a ≤ b) l) (hne : l ≠ []) :
    l.headD 0 ∈ l ∧ ∀ x ∈ l, l.headD 0 ≤ x := by
  cases l with
  | nil => exact absurd rfl hne
  | cons a t =>
    refine ⟨List.mem_cons_self a t, ?_⟩
    intro x hx
    rcases List.mem_cons.mp hx with rfl | hx2
    · exact Nat.le_refl _
    · exact List.rel_of_sorted_cons hs x hx2

/-- A sorted non-empty list ends with its maximum. -/
theorem sorted_getLastD_max (l : List Nat)
    (hs : List.Sorted (fun a b : Nat => a ≤ b) l) (hne : l ≠ []) :
    l.getLastD 0 ∈ l ∧ ∀ x ∈ l, x ≤ l.getLastD 0 := by
  obtain ⟨y, hy⟩ : ∃ y, l.getLast? = some y := by
    cases l with
    | nil => exact absurd rfl hne
    | cons a t => exact ⟨_, List.getLast?_eq_getLast _ (List.cons_ne_nil a t)⟩
  obtain ⟨ys, rfl⟩ := List.getLast?_eq_some_iff.mp hy
  have hLD : (ys ++ [y]).getLastD 0 = y := List.getLastD_concat 0 y ys
  rw [hLD]
  have hpair := (List.pairwise_append.mp hs).2.2
  constructor
  · exact List.mem_append.mpr (Or.inr (List.mem_singleton_self y))
  · intro x hx
    rcases List.mem_append.mp hx with hx1 | hx2
    · exact hpair x hx1 y (List.mem_singleton_self y)
    · rw [List.mem_singleton.mp hx2]

/-- Folding collector calls over any starting state adds the number of
calls to `TotalQueries` and the number of `Record` calls to the stored
duration count. -/
theorem applyOps_counts (ops : List StatOp) :
    ∀ s : Statistics,
      (applyOps s ops).totalQueries = s.totalQueries + ops.length ∧
      (applyOps s ops).durations.length =
        s.durations.length + ops.countP (fun o => o.isSuccess) := by
  induction ops with
  | nil => intro s; simp [applyOps]
  | cons o rest ih =>
    intro s
    cases o with
    | success d =>
      have h := ih (s.record d)
      simp only [applyOps, List.foldl_cons, applyOp] at h ⊢
      simp [Statistics.record, List.countP_cons, StatOp.isSuccess] at h ⊢
      omega
    | failure =>
      have h := ih s.recordError
      simp only [applyOps, List.foldl_cons, applyOp] at h ⊢
      simp [Statistics.recordError, List.countP_cons, StatOp.isSuccess] at h ⊢
      omega

/-- The `Record` and `RecordError` calls in a list partition its length. -/
theorem countP_success_add_failure (ops : List StatOp) :
    ops.countP (fun o => o.isSuccess) +
      ops.countP (fun o => !o.isSuccess) = ops.length := by
  induction ops with
  | nil => rfl
  | cons o rest ih =>
    cases ho : o.isSuccess <;> simp [List.countP_cons, ho] <;> omega

/-- C7: for every interleaving (sequential order, each call atomic under
the mutex) of `Record` and `RecordError` calls on a fresh `Statistics`
value, `TotalQueries` ends at M+K — M the number of `Record` calls, K the
number of `RecordError` calls — and the stored durations sequence has
length M. Quantifying over every call list also gives the invariant after
every prefix of the interleaving. -/
theorem record_interleaving_counts (ops : List StatOp) :
    (applyOps Statistics.new ops).totalQueries =
      ops.countP (fun o => o.isSuccess) +
        ops.countP (fun o => !o.isSuccess) ∧
    (applyOps Statistics.new ops).durations.length =
      ops.countP (fun o => o.isSuccess) := by
  have h := applyOps_counts ops Statistics.new
  have hlen := countP_success_add_failure ops
  constructor
  · rw [h.1, show Statistics.new.totalQueries = 0 from rfl, ← hlen,
      Nat.zero_add]
  · rw [h.2, show Statistics.new.durations.length = 0 from rfl, Nat.zero_add]

/-- A `Statistics` value as it stands after ingesting the given durations
(other fields as after `New` plus the matching number of `Record` calls). -/
def statsOf (ds : List Nat) : Statistics :=
  ⟨ds.length, 0, 0, 0, 0, 0, 0, 0, 0, ds⟩

/-- `[100, 200, 150, 300, 250]` milliseconds, in nanoseconds. -/
def exListOdd : List Nat :=
  [100000000, 200000000, 150000000, 300000000, 250000000]

/-- `[100, 200, 300, 400]` milliseconds, in nanoseconds. -/
def exListEven : List Nat := [100000000, 200000000, 300000000, 400000000]

/-- C5: on a non-empty duration list, `Compute` sorts ascending and sets
`MinTime`/`MaxTime` to the smallest/largest recorded sample, `AvgTime` to
the arithmetic mean (integer division, as Go's `Duration` division) and
`MedianTime` to the middle of the sorted samples (odd count) or the mean
of the two middle ones (even count); on the concrete millisecond examples
it yields min=100, max=300, mean=200, median=200 and median=250; and on
zero samples `Compute` is a no-op — total on every input, so it cannot
fail or divide by zero — leaving every derived field at its zero value. -/
theorem compute_summary_fields :
    (∀ s : Statistics, s.durations ≠ [] →
      List.Sorted (fun a b : Nat => a ≤ b) (s.compute).durations ∧
      (s.compute).durations.Perm s.durations ∧
      ((s.compute).minTime ∈ s.durations ∧
        ∀ x ∈ s.durations, (s.compute).minTime ≤ x) ∧
      ((s.compute).maxTime ∈ s.durations ∧
        ∀ x ∈ s.durations, x ≤ (s.compute).maxTime) ∧
      (s.compute).avgTime = s.durations.sum / s.durations.length ∧
      (s.compute).medianTime =
        (if (s.durations.insertionSort (fun a b => a ≤ b)).length % 2 = 0 then
          ((s.durations.insertionSort (fun a b => a ≤ b)).getD
              ((s.durations.insertionSort (fun a b => a ≤ b)).length / 2 - 1) 0 +
            (s.durations.insertionSort (fun a b => a ≤ b)).getD
              ((s.durations.insertionSort (fun a b => a ≤ b)).length / 2) 0) / 2
        else
          (s.durations.insertionSort (fun a b => a ≤ b)).getD
            ((s.durations.insertionSort (fun a b => a ≤ b)).length / 2) 0)) ∧
    ((statsOf exListOdd).compute.minTime = 100000000 ∧
      (statsOf exListOdd).compute.maxTime = 300000000 ∧
      (statsOf exListOdd).compute.avgTime = 200000000 ∧
      (statsOf exListOdd).compute.medianTime = 200000000) ∧
    (statsOf exListEven).compute.medianTime = 250000000 ∧
    (∀ s : Statistics, s.durations = [] → s.compute = s) ∧
    Statistics.new.compute.minTime = 0 := by
  refine ⟨?_, by decide, by decide, ?_, by decide⟩
  · intro s h
    have hlen : s.durations.length ≠ 0 := by
      simpa [List.length_eq_zero] using h
    have hsort := List.sorted_insertionSort (fun a b : Nat => a ≤ b)
      s.durations
    have hperm := List.perm_insertionSort (fun a b : Nat => a ≤ b)
      s.durations
    have hlne : s.durations.insertionSort (fun a b : Nat => a ≤ b) ≠ [] := by
      intro hnil
      apply h
      have hlen2 := hperm.length_eq
      rw [hnil] at hlen2
      simp only [List.length_nil] at hlen2
      exact List.length_eq_zero.mp hlen2.symm
    have hdur : (s.compute).durations =
        s.durations.insertionSort (fun a b : Nat => a ≤ b) := by
      simp only [Statistics.compute, if_neg hlen]
    have hmin : (s.compute).minTime =
        (s.durations.insertionSort (fun a b : Nat => a ≤ b)).headD 0 := by
      simp only [Statistics.compute, if_neg hlen]
    have hmax : (s.compute).maxTime =
        (s.durations.insertionSort (fun a b : Nat => a ≤ b)).getLastD 0 := by
      simp only [Statistics.compute, if_neg hlen]
    have havg : (s.compute).avgTime =
        (s.durations.insertionSort (fun a b : Nat => a ≤ b)).sum /
          (s.durations.insertionSort (fun a b : Nat => a ≤ b)).length := by
      simp only [Statistics.compute, if_neg hlen]
    have hmed : (s.compute).medianTime =
        (if (s.durations.insertionSort (fun a b : Nat => a ≤ b)).length % 2 = 0 then
          ((s.durations.insertionSort (fun a b : Nat => a ≤ b)).getD
              ((s.durations.insertionSort (fun a b : Nat => a ≤ b)).length / 2 - 1) 0 +
            (s.durations.insertionSort (fun a b : Nat => a ≤ b)).getD
              ((s.durations.insertionSort (fun a b : Nat => a ≤ b)).length / 2) 0) / 2
        else
          (s.durations.insertionSort (fun a b : Nat => a ≤ b)).getD
            ((s.durations.insertionSort (fun a b : Nat => a ≤ b)).length / 2) 0) := by
      simp only [Statistics.compute, if_neg hlen]
    have hminML := sorted_headD_min _ hsort hlne
    have hmaxML := sorted_getLastD_max _ hsort hlne
    refine ⟨hdur ▸ hsort, hdur ▸ hperm, ⟨?_, ?_⟩, ⟨?_, ?_⟩, ?_, hmed⟩
    · exact hmin ▸ (hperm.mem_iff.mp hminML.1)
    · intro x hx
      exact hmin ▸ hminML.2 x (hperm.mem_iff.mpr hx)
    · exact hmax ▸ (hperm.mem_iff.mp hmaxML.1)
    · intro x hx
      exact hmax ▸ hmaxML.2 x (hperm.mem_iff.mpr hx)
    · rw [havg, hperm.sum_eq, hperm.length_eq]
  · intro s h
    simp [Statistics.compute, h]

/-- Witness for C5 at the odd-length concrete example. -/
theorem compute_summary_fields_witness :
    (statsOf exListOdd).compute.minTime ∈ (statsOf exListOdd).durations :=
  ((compute_summary_fields.1 (statsOf exListOdd) (by decide)).2.2.1).1

/-- The 100 samples `1..100` milliseconds, in nanoseconds. -/
def l100 : List Nat := (List.range 100).map fun i => (i + 1) * 1000000

/-- The accumulator holding the 100 samples `1..100` ms. -/
def s100 : Statistics := statsOf l100

/-- `l100` is sorted ascending. -/
theorem l100_sorted : List.Sorted (fun a b : Nat => a ≤ b) l100 := by decide

/-- Sorting `l100` leaves it unchanged. -/
theorem l100_insertionSort :
    l100.insertionSort (fun a b : Nat => a ≤ b) = l100 := by decide

/-- The three percentile fields on the 100-sample accumulator. -/
theorem s100_percentile_values :
    s100.compute.p90 = 90100000 ∧ s100.compute.p95 = 95050000 ∧
    s100.compute.p99 = 99010000 := by
  have hlen : ¬(l100.length = 0) := by decide
  refine ⟨?_, ?_, ?_⟩
  · have h1 : s100.compute.p90 =
        percentile (l100.insertionSort (fun a b : Nat => a ≤ b)) 90 := by
      simp only [Statistics.compute, s100, statsOf, if_neg hlen]
    rw [h1, l100_insertionSort, show (90 : ℚ) = ((90 : ℕ) : ℚ) by norm_num,
      percentile_nat l100 90 (by decide) l100_sorted]
    decide
  · have h1 : s100.compute.p95 =
        percentile (l100.insertionSort (fun a b : Nat => a ≤ b)) 95 := by
      simp only [Statistics.compute, s100, statsOf, if_neg hlen]
    rw [h1, l100_insertionSort, show (95 : ℚ) = ((95 : ℕ) : ℚ) by norm_num,
      percentile_nat l100 95 (by decide) l100_sorted]
    decide
  · have h1 : s100.compute.p99 =
        percentile (l100.insertionSort (fun a b : Nat => a ≤ b)) 99 := by
      simp only [Statistics.compute, s100, statsOf, if_neg hlen]
    rw [h1, l100_insertionSort, show (99 : ℚ) = ((99 : ℕ) : ℚ) by norm_num,
      percentile_nat l100 99 (by decide) l100_sorted]
    decide

/-- C4: on every non-empty duration multiset, `Compute` fills P90/P95/P99
with the specification's linear-interpolation rank rule applied to the
ascending sort of the samples (`rank = (p/100)*(n-1)`, interpolation
between `floor(rank)` and `floor(rank)+1` by the fractional offset,
clamped to the last sample on overflow); in particular, on the 100 samples
1..100 ms the computed P90, P95 and P99 are within 1 ms of 90, 95 and
99 ms. -/
theorem compute_percentiles_rank :
    (∀ s : Statistics, s.durations ≠ [] →
      (s.compute).p90 =
        specPercentile (s.durations.insertionSort (fun a b : Nat => a ≤ b)) 90 ∧
      (s.compute).p95 =
        specPercentile (s.durations.insertionSort (fun a b : Nat => a ≤ b)) 95 ∧
      (s.compute).p99 =
        specPercentile (s.durations.insertionSort (fun a b : Nat => a ≤ b)) 99) ∧
    (89000000 ≤ s100.compute.p90 ∧ s100.compute.p90 ≤ 91000000 ∧
      94000000 ≤ s100.compute.p95 ∧ s100.compute.p95 ≤ 96000000 ∧
      98000000 ≤ s100.compute.p99 ∧ s100.compute.p99 ≤ 100000000) := by
  constructor
  · intro s h
    have hlen : s.durations.length ≠ 0 := by
      simpa [List.length_eq_zero] using h
    refine ⟨?_, ?_, ?_⟩ <;>
      · simp only [Statistics.compute, if_neg hlen]
        exact percentile_eq_specPercentile _ _
  · obtain ⟨h90, h95, h99⟩ := s100_percentile_values
    rw [h90, h95, h99]
    refine ⟨by decide, by decide, by decide, by decide, by decide, by decide⟩

/-- Witness for C4 at the odd-length concrete example. -/
theorem compute_percentiles_rank_witness :
    (statsOf exListOdd).compute.p90 =
      specPercentile (exListOdd.insertionSort (fun a b : Nat => a ≤ b)) 90 :=
  (compute_percentiles_rank.1 (statsOf exListOdd) (by decide)).1

end Benchmark
